import Mathlib

/-!
Shallow embedding of the diagram-canvas core of the data-model editor:
the viewport controller (wheel zoom, toolbar zoom), the geometry engine
(`getEntityRect`), and the interaction handlers operating on the entity
and relationship collections (delete, paste, marquee release, drag
commit, resize commit, single-relationship delete).

Coordinates and sizes are modelled as rationals (the source works on JS
numbers; all the operations verified here are field-arithmetic and
comparisons, exact over ℚ).  Identifiers are strings, as in the source.
The JS `Set` of selected ids is modelled as a list considered up to
membership.
-/

/-- An attribute of an entity (source: `interface Attribute`, the fields
the verified operations read or rewrite). -/
structure Attribute where
  id : String
  name : String
  dataType : String
deriving DecidableEq, Repr

/-- A diagram entity (source: `interface EntityNode`, the fields the
verified operations read or rewrite; `width`/`height` are the optional
explicit size). -/
structure EntityNode where
  id : String
  name : String
  x : ℚ
  y : ℚ
  width : Option ℚ
  height : Option ℚ
  attributes : List Attribute
  collapsed : Bool
deriving DecidableEq, Repr

/-- Cardinality tag (source: `enum Cardinality`). -/
inductive Cardinality where
  | oneToOne
  | oneToMany
  | manyToMany
deriving DecidableEq, Repr

/-- Line-style tag (source: `type LineStyle`). -/
inductive LineStyle where
  | straight
  | curve
  | step
deriving DecidableEq, Repr

/-- A relationship between two entities (source: `interface Relationship`). -/
structure Relationship where
  id : String
  sourceId : String
  targetId : String
  cardinality : Cardinality
  lineStyle : LineStyle
deriving DecidableEq, Repr

/-- Diagram representation kind (source: `enum ModelType`). -/
inductive ModelType where
  | conceptual
  | logical
  | physical
  | dimensional
deriving DecidableEq, Repr

/-- The two collections the canvas commits to the external model. -/
structure ModelState where
  entities : List EntityNode
  relationships : List Relationship
deriving DecidableEq, Repr

/-- Viewport: pan offset plus zoom factor (source: `offset`/`zoom` state). -/
structure Viewport where
  offsetX : ℚ
  offsetY : ℚ
  zoom : ℚ
deriving DecidableEq, Repr

/-- Wheel-zoom clamp (source: `Math.max(0.1, Math.min(5, zoom * scaleFactor))`). -/
def clampZoom (z : ℚ) : ℚ :=
  max (1 / 10) (min 5 z)

/-- Zoom branch of `handleWheel`.  `scaleFactor` abstracts
`Math.pow(1 + sensitivity, -deltaY)`, which ranges over the positive
reals; the new offset is `mouse - (mouse - offset) * (nextZoom / zoom)`. -/
def wheelZoom (vp : Viewport) (mouseX mouseY scaleFactor : ℚ) : Viewport :=
  let nextZoom := clampZoom (vp.zoom * scaleFactor)
  let zoomChange := nextZoom / vp.zoom
  { offsetX := mouseX - (mouseX - vp.offsetX) * zoomChange
    offsetY := mouseY - (mouseY - vp.offsetY) * zoomChange
    zoom := nextZoom }

/-- Screen-to-world conversion, x coordinate (source: `(clientX - rect.left - offset.x) / zoom`). -/
def screenToWorldX (vp : Viewport) (sx : ℚ) : ℚ :=
  (sx - vp.offsetX) / vp.zoom

/-- Screen-to-world conversion, y coordinate. -/
def screenToWorldY (vp : Viewport) (sy : ℚ) : ℚ :=
  (sy - vp.offsetY) / vp.zoom

/-- Toolbar zoom-in button (source: `setZoom(z => Math.min(z + 0.1, 2))`). -/
def toolbarZoomIn (z : ℚ) : ℚ :=
  min (z + 1 / 10) 2

/-- Toolbar zoom-out button (source: `setZoom(z => Math.max(z - 0.1, 0.5))`). -/
def toolbarZoomOut (z : ℚ) : ℚ :=
  max (z - 1 / 10) (1 / 2)

/-- Zoom values reachable from the initial zoom (1) through the two
control paths: wheel zoom (any positive scale factor) and the two
toolbar buttons. -/
inductive ZoomReachable : ℚ → Prop where
  | init : ZoomReachable 1
  | wheel (f : ℚ) (hf : 0 < f) {z : ℚ} :
      ZoomReachable z → ZoomReachable (clampZoom (z * f))
  | toolbarIn {z : ℚ} : ZoomReachable z → ZoomReachable (toolbarZoomIn z)
  | toolbarOut {z : ℚ} : ZoomReachable z → ZoomReachable (toolbarZoomOut z)

/-- Deletion of the selected entities (source: `handleDeleteSelectedEntities`):
keep entities whose id is not selected, keep relationships whose source
and target are both unselected; a no-op when the selection is empty. -/
def handleDeleteSelectedEntities (selectedIds : List String) (s : ModelState) :
    ModelState :=
  if selectedIds.isEmpty then s
  else
    { entities := s.entities.filter (fun e => !(selectedIds.contains e.id))
      relationships := s.relationships.filter
        (fun r => !(selectedIds.contains r.sourceId) &&
          !(selectedIds.contains r.targetId)) }

/-- The sequence of states the external model observes during
`handleDeleteSelectedEntities`: the source issues two separate commits,
`onRelationshipsChange(newRelationships)` first and
`onEntitiesChange(newEntities)` second, so between them the model holds
the original entities together with the already-pruned relationships. -/
def deleteObservableStates (selectedIds : List String) (s : ModelState) :
    List ModelState :=
  if selectedIds.isEmpty then [s]
  else
    let final := handleDeleteSelectedEntities selectedIds s
    [s, { entities := s.entities, relationships := final.relationships }, final]

/-- Inconsistency direction one of C6: a state where some selected
entity that existed in the original is gone, yet a relationship
referencing it remains. -/
def doomedGoneDanglingRemains (selectedIds : List String) (orig st : ModelState) :
    Prop :=
  ∃ i ∈ selectedIds, (∃ e ∈ orig.entities, e.id = i) ∧
    (∀ e ∈ st.entities, e.id ≠ i) ∧
    ∃ r ∈ st.relationships, r.sourceId = i ∨ r.targetId = i

/-- Inconsistency direction two of C6: a state where some selected
entity is still present, yet a relationship of the original collection
referencing it has already been pruned. -/
def prunedWhileDoomedPresent (selectedIds : List String) (orig st : ModelState) :
    Prop :=
  ∃ i ∈ selectedIds, (∃ e ∈ st.entities, e.id = i) ∧
    ∃ r ∈ orig.relationships,
      (r.sourceId = i ∨ r.targetId = i) ∧ r ∉ st.relationships

/-- Deletion of a single relationship by id (source: `handleDeleteRel`):
filter it out of the relationship collection; clear the relationship
selection when it was the selected one.  The entity collection is not
touched by this handler. -/
def handleDeleteRel (relId : String) (s : ModelState)
    (selectedRelId : Option String) : ModelState × Option String :=
  ({ s with relationships := s.relationships.filter (fun r => !(r.id == relId)) },
    if selectedRelId = some relId then none else selectedRelId)

/-- An axis-aligned bounding box in world units. -/
structure Rect where
  x : ℚ
  y : ℚ
  w : ℚ
  h : ℚ
deriving DecidableEq, Repr

/-- Bounding box of an entity (source: `getEntityRect`).  Explicit
width/height win when both are truthy (present and nonzero, per JS
truthiness); conceptual models use a fixed 160x100 box; otherwise the
height is a 44-unit header plus 24 per visible attribute plus a 24-unit
footer when more than five attributes exist and no text filter is
active (4 units of padding otherwise); a collapsed entity with more
than five attributes shows only five rows unless a filter is active. -/
def getEntityRect (modelType : ModelType) (searchTerm : String)
    (node : EntityNode) : Rect :=
  if node.width.getD 0 ≠ 0 ∧ node.height.getD 0 ≠ 0 then
    { x := node.x, y := node.y, w := node.width.getD 0, h := node.height.getD 0 }
  else if modelType = ModelType.conceptual then
    { x := node.x, y := node.y, w := 160, h := 100 }
  else
    let visibleAttrsCount : ℕ :=
      if ¬ 0 < searchTerm.length ∧ node.collapsed = true ∧
          5 < node.attributes.length then 5
      else node.attributes.length
    let footer : ℚ :=
      if ¬ 0 < searchTerm.length ∧ 5 < node.attributes.length then 24 else 4
    { x := node.x, y := node.y, w := 256
      h := 44 + (visibleAttrsCount : ℚ) * 24 + footer }

/-- The in-progress marquee rectangle, in world units (source:
`SelectionBox` state). -/
structure SelectionBox where
  startX : ℚ
  startY : ℚ
  currentX : ℚ
  currentY : ℚ
deriving DecidableEq, Repr

/-- The axis-aligned overlap test of the marquee release (source:
`!(rect.x > x2 || entRight < x1 || rect.y > y2 || entBottom < y1)`). -/
def overlapsBox (rect : Rect) (x1 y1 x2 y2 : ℚ) : Bool :=
  !(decide (x2 < rect.x) || decide (rect.x + rect.w < x1) ||
    decide (y2 < rect.y) || decide (rect.y + rect.h < y1))

/-- Marquee release (selection branch of `handleMouseUp`): normalize the
two marquee corners by min/max and add to the selection the id of every
entity whose bounding box overlaps the rectangle.  The JS `Set` is
modelled as a list up to membership. -/
def marqueeRelease (modelType : ModelType) (searchTerm : String)
    (box : SelectionBox) (entities : List EntityNode)
    (selected : List String) : List String :=
  let x1 := min box.startX box.currentX
  let y1 := min box.startY box.currentY
  let x2 := max box.startX box.currentX
  let y2 := max box.startY box.currentY
  selected ++ (entities.filter
    (fun ent => overlapsBox (getEntityRect modelType searchTerm ent) x1 y1 x2 y2)).map
      (fun ent => ent.id)

/-- The transient drag overlay produced by the entity branch of
`handleMouseMove`: each captured pre-drag position, moved by the world
delta `(screenDelta / zoom)`. -/
def entityDragUpdates (initialPositions : List (String × ℚ × ℚ)) (dx dy : ℚ) :
    List (String × ℚ × ℚ) :=
  initialPositions.map (fun u => (u.1, u.2.1 + dx, u.2.2 + dy))

/-- Screen-to-world conversion of a pointer delta (source:
`(e.clientX - dragState.startMouseX) / zoom`). -/
def worldDelta (client start zoom : ℚ) : ℚ :=
  (client - start) / zoom

/-- Lookup in the drag-overlay record, keyed by entity id (keys are
unique in the source: the record is built from a `Set` of ids). -/
def lookupUpdate : List (String × ℚ × ℚ) → String → Option (ℚ × ℚ)
  | [], _ => none
  | u :: rest, i => if u.1 = i then some u.2 else lookupUpdate rest i

/-- Merge of the positional drag overlay into the entity collection
(source: `entities.map(e => dragUpdates[e.id] ? {...e, ...dragUpdates[e.id]} : e)`
where the overlay entries carry `x` and `y`). -/
def commitDragUpdates (updates : List (String × ℚ × ℚ))
    (entities : List EntityNode) : List EntityNode :=
  entities.map (fun e =>
    match lookupUpdate updates e.id with
    | some p => { e with x := p.1, y := p.2 }
    | none => e)

/-- Pointer-up on an entity drag (source: `handleMouseUp`, commit
branch): when the overlay is nonempty, merge it into the entity
collection; the overlay is empty afterwards in either case. -/
def handleMouseUpEntityDrag (updates : List (String × ℚ × ℚ))
    (entities : List EntityNode) : List EntityNode × List (String × ℚ × ℚ) :=
  (if updates.isEmpty then entities else commitDragUpdates updates entities, [])

/-- Resize branch of `handleMouseMove`: the requested size is the
starting size plus the world delta, floored at width 150 and height 80
(source: `Math.max(150, startW + deltaX)`, `Math.max(80, startH + deltaY)`). -/
def resizeUpdate (startW startH dx dy : ℚ) : ℚ × ℚ :=
  (max 150 (startW + dx), max 80 (startH + dy))

/-- Pointer-up commit of a resize: the overlay holds width/height for
the one resized entity, and the `handleMouseUp` merge writes them onto
that entity. -/
def commitResize (entityId : String) (w h : ℚ) (entities : List EntityNode) :
    List EntityNode :=
  entities.map (fun e =>
    if e.id = entityId then { e with width := some w, height := some h } else e)

/-- Clone of an attribute list during paste: every attribute keeps its
fields but receives a freshly generated id (source:
`item.attributes.map(a => ({...a, id: generateId()}))`).  The id
generator is modelled as a stream `gen` consumed at a counter `c`. -/
def cloneAttrs (gen : ℕ → String) : ℕ → List Attribute → List Attribute
  | _, [] => []
  | c, a :: rest => { a with id := gen c } :: cloneAttrs gen (c + 1) rest

/-- Clone of one clipboard entity during paste: fresh id, position
offset by (+20, +20), name suffixed, attributes re-identified (source:
the paste branch of `handleKeyDown`).  The entity id is generated
before the attribute ids, matching the source's call order. -/
def cloneEntity (gen : ℕ → String) (c : ℕ) (item : EntityNode) : EntityNode :=
  { item with
    id := gen c
    x := item.x + 20
    y := item.y + 20
    name := item.name ++ "_copy"
    attributes := cloneAttrs gen (c + 1) item.attributes }

/-- The list of clones produced by one paste, threading the id-stream
counter: each clipboard item consumes one id for itself plus one per
attribute. -/
def pasteClones (gen : ℕ → String) : ℕ → List EntityNode → List EntityNode
  | _, [] => []
  | c, item :: rest =>
      cloneEntity gen c item :: pasteClones gen (c + 1 + item.attributes.length) rest

/-- Paste branch of `handleKeyDown`: with a nonempty clipboard, append
the clones to the entity collection and select exactly the clones;
a no-op when the clipboard is empty (the source guards on
`clipboard && clipboard.length > 0`). -/
def handlePaste (gen : ℕ → String) (entities clipboard : List EntityNode)
    (selected : List String) : List EntityNode × List String :=
  if clipboard.isEmpty then (entities, selected)
  else
    (entities ++ pasteClones gen 0 clipboard,
      (pasteClones gen 0 clipboard).map (fun e => e.id))

/-- What the paste branch guarantees for one clone, relative to its
clipboard source: position offset by (+20, +20), name suffixed with
"_copy", all other entity fields preserved by the spread, attribute
names and data types preserved, and every attribute id drawn from the
id generator. -/
def IsCloneOf (gen : ℕ → String) (item e : EntityNode) : Prop :=
  e.x = item.x + 20 ∧ e.y = item.y + 20 ∧ e.name = item.name ++ "_copy" ∧
  e.width = item.width ∧ e.height = item.height ∧ e.collapsed = item.collapsed ∧
  e.attributes.map Attribute.name = item.attributes.map Attribute.name ∧
  e.attributes.map Attribute.dataType = item.attributes.map Attribute.dataType ∧
  ∀ a ∈ e.attributes, ∃ i, a.id = gen i

/-- A concrete injective id stream used to evaluate the paste theorem
on closed inputs: the n-th generated id is the string of n letters a. -/
def genEx (n : ℕ) : String :=
  String.mk (List.replicate n 'a')

/-- A concrete entity used to evaluate the theorems on closed inputs. -/
def entA : EntityNode :=
  { id := "a", name := "A", x := 0, y := 0, width := none, height := none
    attributes := [], collapsed := false }

/-- A second concrete entity. -/
def entB : EntityNode :=
  { id := "b", name := "B", x := 30, y := 40, width := none, height := none
    attributes := [], collapsed := false }

/-- A concrete relationship from `entA` to `entB`. -/
def relAB : Relationship :=
  { id := "r1", sourceId := "a", targetId := "b"
    cardinality := Cardinality.oneToMany, lineStyle := LineStyle.step }

/-- A concrete entity at (100, 100), used for the drag scenario. -/
def entC : EntityNode :=
  { id := "c", name := "E1", x := 100, y := 100, width := none, height := none
    attributes := [], collapsed := false }

/-- A concrete uncollapsed entity with eight attributes and no explicit
size, used for the bounding-box scenario. -/
def entEight : EntityNode :=
  { id := "e8", name := "E8", x := 0, y := 0, width := none, height := none
    attributes :=
      [⟨"a1", "f1", "int"⟩, ⟨"a2", "f2", "int"⟩, ⟨"a3", "f3", "int"⟩,
        ⟨"a4", "f4", "int"⟩, ⟨"a5", "f5", "int"⟩, ⟨"a6", "f6", "int"⟩,
        ⟨"a7", "f7", "int"⟩, ⟨"a8", "f8", "int"⟩]
    collapsed := false }

-- ---------------------------------------------------------------------
-- Theorems
-- ---------------------------------------------------------------------

theorem clampZoom_pos (z : ℚ) : 0 < clampZoom z :=
  lt_of_lt_of_le (by norm_num) (le_max_left _ _)

theorem contains_eq_false_iff_not_mem (l : List String) (a : String) :
    l.contains a = false ↔ a ∉ l := by
  simp [List.contains, List.elem_eq_mem]

/-- C1: wheel zoom is anchor-preserving — the world coordinate under the
mouse screen point, `(screen - offset) / zoom`, is unchanged by
`wheelZoom` (exactly, over ℚ, hence within any epsilon), because the new
offset is `mouse - (mouse - offset) * (nextZoom / zoom)`. -/
theorem wheelZoom_anchor_preserving (vp : Viewport) (mouseX mouseY scaleFactor : ℚ)
    (hz : 0 < vp.zoom) :
    screenToWorldX (wheelZoom vp mouseX mouseY scaleFactor) mouseX =
        screenToWorldX vp mouseX ∧
    screenToWorldY (wheelZoom vp mouseX mouseY scaleFactor) mouseY =
        screenToWorldY vp mouseY := by
  have hnz : 0 < clampZoom (vp.zoom * scaleFactor) := clampZoom_pos _
  constructor
  · unfold screenToWorldX wheelZoom
    field_simp
    ring
  · unfold screenToWorldY wheelZoom
    field_simp
    ring

theorem wheelZoom_anchor_preserving_witness :
    (0 : ℚ) < (1 : ℚ) ∧
    screenToWorldX (wheelZoom ⟨3, 4, 1⟩ 7 9 2) 7 = screenToWorldX ⟨3, 4, 1⟩ 7 :=
  ⟨by norm_num, (wheelZoom_anchor_preserving ⟨3, 4, 1⟩ 7 9 2 (by norm_num)).1⟩

/-- C9 counterexample: zoom 1/5 is reachable (one wheel step down from
the initial zoom 1), and the toolbar zoom-in button applied there yields
3/10, which lies outside [1/2, 2]; so toolbar-driven zoom results are
not clamped to [1/2, 2] for every reachable starting zoom. -/
theorem toolbar_zoom_not_clamped_to_half_two :
    ZoomReachable (1 / 5) ∧ toolbarZoomIn (1 / 5) = 3 / 10 ∧
    ¬ (1 / 2 ≤ toolbarZoomIn (1 / 5)) := by
  refine ⟨?_, by norm_num [toolbarZoomIn], by norm_num [toolbarZoomIn]⟩
  have h := ZoomReachable.wheel (1 / 5) (by norm_num) ZoomReachable.init
  have he : clampZoom (1 * (1 / 5)) = 1 / 5 := by norm_num [clampZoom]
  exact he ▸ h

/-- C9 amended: after any wheel-driven zoom the zoom factor lies in
[1/10, 5]; the toolbar zoom-in result is at most 2 and the toolbar
zoom-out result is at least 1/2 (each button clamps on one side only);
and when the starting zoom already lies in [1/2, 2] both toolbar
results stay in [1/2, 2]. -/
theorem zoom_clamp_ranges (vp : Viewport) (mouseX mouseY scaleFactor z : ℚ) :
    ((1 / 10 : ℚ) ≤ (wheelZoom vp mouseX mouseY scaleFactor).zoom ∧
      (wheelZoom vp mouseX mouseY scaleFactor).zoom ≤ 5) ∧
    toolbarZoomIn z ≤ 2 ∧ (1 / 2 : ℚ) ≤ toolbarZoomOut z ∧
    (1 / 2 ≤ z → z ≤ 2 →
      (1 / 2 ≤ toolbarZoomIn z ∧ toolbarZoomIn z ≤ 2 ∧
        1 / 2 ≤ toolbarZoomOut z ∧ toolbarZoomOut z ≤ 2)) := by
  refine ⟨⟨le_max_left _ _, max_le (by norm_num) (min_le_left _ _)⟩,
    min_le_right _ _, le_max_right _ _, fun h1 h2 => ?_⟩
  refine ⟨le_min (by linarith) (by norm_num), min_le_right _ _,
    le_max_right _ _, max_le (by linarith) (by norm_num)⟩

theorem zoom_clamp_ranges_witness :
    (1 / 2 : ℚ) ≤ 1 ∧ (1 : ℚ) ≤ 2 ∧ (1 / 2 : ℚ) ≤ toolbarZoomIn 1 ∧
    toolbarZoomIn 1 ≤ 2 :=
  ⟨by norm_num, by norm_num,
    ((zoom_clamp_ranges ⟨0, 0, 1⟩ 0 0 1 1).2.2.2 (by norm_num) (by norm_num)).1,
    ((zoom_clamp_ranges ⟨0, 0, 1⟩ 0 0 1 1).2.2.2 (by norm_num) (by norm_num)).2.1⟩

/-- C2: deleting a nonempty selection leaves no relationship whose
source or target id was selected, and keeps exactly the entities whose
ids were not selected. -/
theorem delete_selected_spec (selectedIds : List String) (s : ModelState)
    (hne : selectedIds ≠ []) :
    (∀ r ∈ (handleDeleteSelectedEntities selectedIds s).relationships,
      r.sourceId ∉ selectedIds ∧ r.targetId ∉ selectedIds) ∧
    (∀ e, e ∈ (handleDeleteSelectedEntities selectedIds s).entities ↔
      e ∈ s.entities ∧ e.id ∉ selectedIds) := by
  have hni : ¬ selectedIds.isEmpty = true := by
    simp [List.isEmpty_iff, hne]
  constructor
  · intro r hr
    rw [handleDeleteSelectedEntities, if_neg hni] at hr
    simp only [List.mem_filter, Bool.and_eq_true, Bool.not_eq_true'] at hr
    exact ⟨(contains_eq_false_iff_not_mem _ _).1 hr.2.1,
      (contains_eq_false_iff_not_mem _ _).1 hr.2.2⟩
  · intro e
    rw [handleDeleteSelectedEntities, if_neg hni]
    simp only [List.mem_filter, Bool.not_eq_true']
    exact and_congr_right fun _ => contains_eq_false_iff_not_mem _ _

theorem delete_selected_spec_witness :
    (entB ∈ (handleDeleteSelectedEntities ["a"]
        ⟨[entA, entB], [relAB]⟩).entities ↔
      entB ∈ [entA, entB] ∧ entB.id ∉ (["a"] : List String)) :=
  (delete_selected_spec ["a"] ⟨[entA, entB], [relAB]⟩ (by decide)).2 entB

/-- C10: deleting one relationship by id keeps the entity collection
untouched, yields a subsequence of the original relationship collection
(order preserved) containing exactly the relationships with a different
id, and clears the relationship selection exactly when the deleted
relationship was the selected one. -/
theorem delete_rel_spec (relId : String) (s : ModelState)
    (selectedRelId : Option String) :
    (handleDeleteRel relId s selectedRelId).1.entities = s.entities ∧
    List.Sublist (handleDeleteRel relId s selectedRelId).1.relationships
      s.relationships ∧
    (∀ r, r ∈ (handleDeleteRel relId s selectedRelId).1.relationships ↔
      r ∈ s.relationships ∧ r.id ≠ relId) ∧
    (selectedRelId = some relId →
      (handleDeleteRel relId s selectedRelId).2 = none) ∧
    (selectedRelId ≠ some relId →
      (handleDeleteRel relId s selectedRelId).2 = selectedRelId) := by
  refine ⟨rfl, List.filter_sublist _, ?_, ?_, ?_⟩
  · intro r
    simp [handleDeleteRel, List.mem_filter]
  · intro h
    simp [handleDeleteRel, h]
  · intro h
    simp [handleDeleteRel, h]

theorem delete_rel_spec_witness :
    (handleDeleteRel "r1" ⟨[entA, entB], [relAB]⟩ (some "r1")).2 = none :=
  (delete_rel_spec "r1" ⟨[entA, entB], [relAB]⟩ (some "r1")).2.2.2.1 rfl

/-- C6 counterexample: deleting entity "a" from a model holding entities
"a", "b" and one relationship from "a" to "b" makes the intermediate
observable state (after the relationship commit, before the entity
commit) show the doomed entity still present while the relationship
referencing it is already pruned — the inconsistency direction the
claim says is never visible. -/
theorem delete_two_commit_shows_pruned_state :
    (⟨[entA, entB], []⟩ : ModelState) ∈
      deleteObservableStates ["a"] ⟨[entA, entB], [relAB]⟩ ∧
    prunedWhileDoomedPresent ["a"] ⟨[entA, entB], [relAB]⟩
      ⟨[entA, entB], []⟩ := by
  constructor
  · decide
  · exact ⟨"a", by decide, ⟨entA, by decide, rfl⟩, relAB, by decide,
      Or.inl rfl, by decide⟩

/-- C6 amended: the relationship commit is issued before the entity
commit, so no observable state of the delete sequence ever shows a
selected entity gone while a relationship referencing it remains; the
reverse intermediate state (relationships already pruned while the
doomed entities are still present) is, however, observable between the
two commits. -/
theorem delete_never_shows_dangling (selectedIds : List String) (s : ModelState) :
    ∀ st ∈ deleteObservableStates selectedIds s,
      ¬ doomedGoneDanglingRemains selectedIds s st := by
  intro st hst hbad
  obtain ⟨i, hi, ⟨e, he, heid⟩, hgone, r, hr, href⟩ := hbad
  rw [deleteObservableStates] at hst
  by_cases hemp : selectedIds.isEmpty
  · rw [if_pos hemp] at hst
    rw [List.mem_singleton] at hst
    subst hst
    exact hgone e he heid
  · rw [if_neg hemp] at hst
    have hst' : st = s ∨
        st = ModelState.mk s.entities
          (handleDeleteSelectedEntities selectedIds s).relationships ∨
        st = handleDeleteSelectedEntities selectedIds s := by
      simpa using hst
    rcases hst' with h | h | h
    · subst h
      exact hgone e he heid
    · subst h
      exact hgone e he heid
    · subst h
      rw [handleDeleteSelectedEntities, if_neg hemp] at hr
      simp only [List.mem_filter, Bool.and_eq_true, Bool.not_eq_true'] at hr
      rcases href with hsrc | htgt
      · exact (contains_eq_false_iff_not_mem _ _).1 hr.2.1 (hsrc ▸ hi)
      · exact (contains_eq_false_iff_not_mem _ _).1 hr.2.2 (htgt ▸ hi)

theorem delete_never_shows_dangling_witness :
    ¬ doomedGoneDanglingRemains ["a"] ⟨[entA, entB], [relAB]⟩
      ⟨[entA, entB], [relAB]⟩ :=
  delete_never_shows_dangling ["a"] ⟨[entA, entB], [relAB]⟩
    ⟨[entA, entB], [relAB]⟩ (by decide)

/-- C8: a non-conceptual entity with no explicit size, eight attributes,
not collapsed and no active text filter gets the full height: a 44-unit
header, all eight 24-unit rows (no truncation to five), and the 24-unit
collapse footer, totalling 260. -/
theorem entity_rect_eight_attrs (modelType : ModelType) (node : EntityNode)
    (hmt : modelType ≠ ModelType.conceptual)
    (hw : node.width = none) (hh : node.height = none)
    (hattrs : node.attributes.length = 8) (hcol : node.collapsed = false) :
    (getEntityRect modelType "" node).h = 44 + 8 * 24 + 24 ∧
    (getEntityRect modelType "" node).h = 260 := by
  rw [getEntityRect, hw, hh]
  rw [if_neg (by simp)]
  rw [if_neg hmt]
  simp only [hattrs, hcol]
  norm_num

theorem entity_rect_eight_attrs_witness :
    (getEntityRect ModelType.logical "" entEight).h = 260 :=
  (entity_rect_eight_attrs ModelType.logical entEight (by decide) rfl rfl
    (by decide) rfl).2

/-- C4: releasing the marquee adds to the prior selection exactly the
ids of the entities whose bounding box overlaps the rectangle spanned
by the marquee's min/max-normalized corners. The new selection is a
superset of the prior one and an id belongs to it exactly when it was
selected before or when it identifies an overlapping entity. -/
theorem marquee_release_spec (modelType : ModelType) (searchTerm : String)
    (box : SelectionBox) (entities : List EntityNode) (selected : List String) :
    (∀ i ∈ selected,
      i ∈ marqueeRelease modelType searchTerm box entities selected) ∧
    (∀ i, i ∈ marqueeRelease modelType searchTerm box entities selected ↔
      i ∈ selected ∨ ∃ e ∈ entities, e.id = i ∧
        overlapsBox (getEntityRect modelType searchTerm e)
          (min box.startX box.currentX) (min box.startY box.currentY)
          (max box.startX box.currentX) (max box.startY box.currentY) = true) := by
  constructor
  · intro i hi
    exact List.mem_append_left _ hi
  · intro i
    simp only [marqueeRelease, List.mem_append, List.mem_map, List.mem_filter]
    apply or_congr Iff.rfl
    constructor
    · rintro ⟨e, ⟨hm, ho⟩, hid⟩
      exact ⟨e, hm, hid, ho⟩
    · rintro ⟨e, hm, hid, ho⟩
      exact ⟨e, ⟨hm, ho⟩, hid⟩

theorem marquee_release_spec_witness :
    "a" ∈ marqueeRelease ModelType.logical "" ⟨0, 0, 1, 1⟩ [] ["a"] :=
  (marquee_release_spec ModelType.logical "" ⟨0, 0, 1, 1⟩ [] ["a"]).1 "a"
    (by decide)

/-- C7: the resize overlay commits width `max 150 (startW + dx)` and
height `max 80 (startH + dy)`; no commit can go below the 150/80
floors, and the resized entity appears in the committed collection with
exactly those dimensions. -/
theorem resize_commit_clamped (entities : List EntityNode) (entityId : String)
    (startW startH dx dy : ℚ) :
    (resizeUpdate startW startH dx dy).1 = max 150 (startW + dx) ∧
    (resizeUpdate startW startH dx dy).2 = max 80 (startH + dy) ∧
    (150 : ℚ) ≤ (resizeUpdate startW startH dx dy).1 ∧
    (80 : ℚ) ≤ (resizeUpdate startW startH dx dy).2 ∧
    ∀ e ∈ entities, e.id = entityId →
      { e with width := some (resizeUpdate startW startH dx dy).1, height := some (resizeUpdate startW startH dx dy).2 } ∈
        commitResize entityId (resizeUpdate startW startH dx dy).1
          (resizeUpdate startW startH dx dy).2 entities := by
  refine ⟨rfl, rfl, le_max_left _ _, le_max_left _ _, ?_⟩
  intro e he hid
  rw [commitResize]
  refine List.mem_map.2 ⟨e, he, ?_⟩
  rw [if_pos hid]

theorem resize_commit_clamped_witness :
    (150 : ℚ) ≤ (resizeUpdate 100 200 (-20) (-150)).1 ∧
    (resizeUpdate 100 200 (-20) (-150)).1 = 150 ∧
    { entA with width := some (resizeUpdate 100 200 (-20) (-150)).1, height := some (resizeUpdate 100 200 (-20) (-150)).2 } ∈
      commitResize "a" (resizeUpdate 100 200 (-20) (-150)).1
        (resizeUpdate 100 200 (-20) (-150)).2 [entA] :=
  ⟨(resize_commit_clamped [entA] "a" 100 200 (-20) (-150)).2.2.1,
    by norm_num [resizeUpdate],
    (resize_commit_clamped [entA] "a" 100 200 (-20) (-150)).2.2.2.2 entA
      (by simp) rfl⟩

theorem lookupUpdate_entityDragUpdates (ips : List (String × ℚ × ℚ))
    (dx dy : ℚ) (i : String) :
    lookupUpdate (entityDragUpdates ips dx dy) i =
      (lookupUpdate ips i).map (fun p => (p.1 + dx, p.2 + dy)) := by
  induction ips with
  | nil => rfl
  | cons u rest ih =>
    by_cases h : u.1 = i
    · simp [entityDragUpdates, lookupUpdate, h]
    · simpa [entityDragUpdates, lookupUpdate, h] using ih

/-- C5: releasing an entity drag commits, for every captured entity,
its captured position moved by the world delta, leaves uncaptured
entities unchanged, and leaves the transient overlay empty. -/
theorem entity_drag_release_commits (entities : List EntityNode)
    (ips : List (String × ℚ × ℚ)) (dx dy : ℚ) :
    (handleMouseUpEntityDrag (entityDragUpdates ips dx dy) entities).2 = [] ∧
    (∀ e ∈ entities, lookupUpdate ips e.id = some (e.x, e.y) →
      { e with x := e.x + dx, y := e.y + dy } ∈
        (handleMouseUpEntityDrag (entityDragUpdates ips dx dy) entities).1) ∧
    (∀ e ∈ entities, lookupUpdate ips e.id = none →
      e ∈ (handleMouseUpEntityDrag (entityDragUpdates ips dx dy) entities).1) := by
  refine ⟨rfl, ?_, ?_⟩
  · intro e he hl
    by_cases hips : ips = []
    · subst hips
      simp [lookupUpdate] at hl
    · have hne : ¬ (entityDragUpdates ips dx dy).isEmpty = true := by
        simp [entityDragUpdates, List.isEmpty_iff, hips]
      rw [handleMouseUpEntityDrag]
      simp only [if_neg hne]
      rw [commitDragUpdates]
      refine List.mem_map.2 ⟨e, he, ?_⟩
      simp [lookupUpdate_entityDragUpdates, hl]
  · intro e he hl
    by_cases hempty : (entityDragUpdates ips dx dy).isEmpty = true
    · rw [handleMouseUpEntityDrag]
      simp only [if_pos hempty]
      exact he
    · rw [handleMouseUpEntityDrag]
      simp only [if_neg hempty]
      rw [commitDragUpdates]
      refine List.mem_map.2 ⟨e, he, ?_⟩
      simp [lookupUpdate_entityDragUpdates, hl]

theorem entity_drag_release_commits_witness :
    (handleMouseUpEntityDrag
      (entityDragUpdates [("c", 100, 100)] 50 (-20)) [entC]).2 = [] ∧
    { entC with x := 150, y := 80 } ∈
      (handleMouseUpEntityDrag
        (entityDragUpdates [("c", 100, 100)] 50 (-20)) [entC]).1 := by
  have h := entity_drag_release_commits [entC] [("c", 100, 100)] 50 (-20)
  refine ⟨h.1, ?_⟩
  have h2 := h.2.1 entC (by simp) (by simp [lookupUpdate, entC])
  have heq : ({ entC with x := entC.x + 50, y := entC.y + (-20) } : EntityNode) = { entC with x := 150, y := 80 } := by
    simp only [entC]
    norm_num
  exact heq ▸ h2

theorem cloneAttrs_map_name (gen : ℕ → String) :
    ∀ (c : ℕ) (l : List Attribute),
      (cloneAttrs gen c l).map Attribute.name = l.map Attribute.name := by
  intro c l
  induction l generalizing c with
  | nil => rfl
  | cons a rest ih => simp [cloneAttrs, ih]

theorem cloneAttrs_map_dataType (gen : ℕ → String) :
    ∀ (c : ℕ) (l : List Attribute),
      (cloneAttrs gen c l).map Attribute.dataType = l.map Attribute.dataType := by
  intro c l
  induction l generalizing c with
  | nil => rfl
  | cons a rest ih => simp [cloneAttrs, ih]

theorem mem_cloneAttrs_id (gen : ℕ → String) :
    ∀ (c : ℕ) (l : List Attribute), ∀ a ∈ cloneAttrs gen c l,
      ∃ i, c ≤ i ∧ a.id = gen i := by
  intro c l
  induction l generalizing c with
  | nil => simp [cloneAttrs]
  | cons b rest ih =>
    intro a ha
    rw [cloneAttrs] at ha
    rcases List.mem_cons.1 ha with h | h
    · exact ⟨c, le_refl c, by rw [h]⟩
    · obtain ⟨i, hci, hid⟩ := ih (c + 1) a h
      exact ⟨i, by omega, hid⟩

theorem pasteClones_length (gen : ℕ → String) :
    ∀ (c : ℕ) (l : List EntityNode), (pasteClones gen c l).length = l.length := by
  intro c l
  induction l generalizing c with
  | nil => rfl
  | cons item rest ih => simp [pasteClones, ih]

theorem mem_pasteClones_id (gen : ℕ → String) :
    ∀ (c : ℕ) (l : List EntityNode), ∀ e ∈ pasteClones gen c l,
      ∃ i, c ≤ i ∧ e.id = gen i := by
  intro c l
  induction l generalizing c with
  | nil => simp [pasteClones]
  | cons item rest ih =>
    intro e he
    rw [pasteClones] at he
    rcases List.mem_cons.1 he with h | h
    · exact ⟨c, le_refl c, by rw [h]; rfl⟩
    · obtain ⟨i, hci, hid⟩ := ih (c + 1 + item.attributes.length) e h
      exact ⟨i, by omega, hid⟩

theorem pasteClones_id_nodup (gen : ℕ → String) (hinj : Function.Injective gen) :
    ∀ (c : ℕ) (l : List EntityNode),
      ((pasteClones gen c l).map EntityNode.id).Nodup := by
  intro c l
  induction l generalizing c with
  | nil => simp [pasteClones]
  | cons item rest ih =>
    rw [pasteClones, List.map_cons]
    refine List.nodup_cons.2 ⟨?_, ih _⟩
    intro hmem
    obtain ⟨e, he, hid⟩ := List.mem_map.1 hmem
    obtain ⟨i, hci, hgi⟩ := mem_pasteClones_id gen _ _ e he
    have hic : i = c := hinj (by rw [← hgi, hid]; rfl)
    omega

theorem pasteClones_forall₂ (gen : ℕ → String) :
    ∀ (c : ℕ) (l : List EntityNode),
      List.Forall₂ (IsCloneOf gen) l (pasteClones gen c l) := by
  intro c l
  induction l generalizing c with
  | nil => exact List.Forall₂.nil
  | cons item rest ih =>
    rw [pasteClones]
    refine List.Forall₂.cons ?_ (ih _)
    refine ⟨rfl, rfl, rfl, rfl, rfl, rfl,
      cloneAttrs_map_name gen _ _, cloneAttrs_map_dataType gen _ _, ?_⟩
    intro a ha
    obtain ⟨i, _, hid⟩ := mem_cloneAttrs_id gen _ _ a ha
    exact ⟨i, hid⟩

/-- C3: pasting a nonempty clipboard through an injective id stream
whose ids avoid every pre-existing entity id yields the original
collection extended with exactly one clone per clipboard item; the
clone ids are pairwise distinct and distinct from every pre-existing
id; each clone sits at (+20, +20) from its source, carries the "_copy"
name suffix and freshly generated attribute ids; and the clones become
the new selection. -/
theorem paste_spec (gen : ℕ → String) (entities clipboard : List EntityNode)
    (selected : List String) (hinj : Function.Injective gen)
    (hfresh : ∀ n, gen n ∉ entities.map EntityNode.id)
    (hne : clipboard ≠ []) :
    (handlePaste gen entities clipboard selected).1 =
      entities ++ pasteClones gen 0 clipboard ∧
    (pasteClones gen 0 clipboard).length = clipboard.length ∧
    ((pasteClones gen 0 clipboard).map EntityNode.id).Nodup ∧
    (∀ e ∈ pasteClones gen 0 clipboard, e.id ∉ entities.map EntityNode.id) ∧
    List.Forall₂ (IsCloneOf gen) clipboard (pasteClones gen 0 clipboard) ∧
    (handlePaste gen entities clipboard selected).2 =
      (pasteClones gen 0 clipboard).map EntityNode.id := by
  have hni : ¬ clipboard.isEmpty = true := by
    simp [List.isEmpty_iff, hne]
  refine ⟨?_, pasteClones_length gen 0 clipboard,
    pasteClones_id_nodup gen hinj 0 clipboard, ?_,
    pasteClones_forall₂ gen 0 clipboard, ?_⟩
  · rw [handlePaste, if_neg hni]
  · intro e he
    obtain ⟨i, _, hid⟩ := mem_pasteClones_id gen 0 clipboard e he
    rw [hid]
    exact hfresh i
  · rw [handlePaste, if_neg hni]

theorem genEx_injective : Function.Injective genEx := by
  intro a b h
  have h2 : (genEx a).length = (genEx b).length := by rw [h]
  simpa [genEx] using h2

theorem paste_spec_witness :
    Function.Injective genEx ∧
    (handlePaste genEx [entB] [entB] []).1 = [entB] ++ pasteClones genEx 0 [entB] ∧
    ((pasteClones genEx 0 [entB]).map EntityNode.id).Nodup ∧
    (handlePaste genEx [entB] [entB] []).2 =
      (pasteClones genEx 0 [entB]).map EntityNode.id := by
  have hfresh : ∀ n, genEx n ∉ [entB].map EntityNode.id := by
    intro n hmem
    have hg : genEx n = "b" := by simpa [entB] using hmem
    have hn : n = 1 := by
      have hl := congrArg String.length hg
      simpa [genEx] using hl
    rw [hn] at hg
    exact absurd hg (by decide)
  have h := paste_spec genEx [entB] [entB] [] genEx_injective hfresh (by simp)
  exact ⟨genEx_injective, h.1, h.2.2.1, h.2.2.2.2.2⟩
